import Mathlib

/-!
Verification of the BIBS belief-induced behaviour simulation agent
(`src/agent.cpp`, `include/bibs/agent.hpp`).

The shallow embedding models:
  * `double` as `ℝ` (exact real arithmetic, `std::exp` as `Real.exp`);
  * `sim_time_t` as `Int` (discrete simulation time, `t - 1` is exact);
  * C++ pointers to beliefs / behaviours / agents as wrapped natural
    numbers compared by identity; a possibly-null `const IBehaviour *`
    is `Option IBehaviour` (with `none` for `nullptr`);
  * `std::map` as an association list with unique-key operations
    mirroring `at` (lookup, failure = `none`), `insert_or_assign`
    (overwrite) and `emplace` (insert only if absent);
  * a C++ method that can throw `std::out_of_range` as a function into
    `Option` (`none` = the NotFound failure escaping the call).
Stateful methods are explicit state passing: a mutator returns the new
`Agent` (or `none` when the C++ call would throw, in which case the old
state is what remains).
-/

/-- A `const IBelief *` pointer, compared by identity. -/
structure IBelief where
  ptr : Nat
deriving DecidableEq

/-- A (non-null) `const IBehaviour *` pointer, compared by identity. -/
structure IBehaviour where
  ptr : Nat
deriving DecidableEq

/-- A `const IAgent *` pointer (a friend agent), compared by identity. -/
structure AgentPtr where
  ptr : Nat
deriving DecidableEq

/-- Modelled from the spec: `sim_time_t` (declared in `bibs/bibs.hpp`,
which is not under `src/`) is the discrete simulation time; the spec
only requires discrete time steps with an exact `t - 1`, so we use `Int`. -/
abbrev sim_time_t : Type := Int

/-- `std::map::at`: the first value bound to the key, `none` when the key
is absent (the C++ call throws `std::out_of_range`). -/
def mapAt {K V : Type} [DecidableEq K] : List (K × V) → K → Option V
  | [], _ => none
  | (k2, v) :: rest, k => if k2 = k then some v else mapAt rest k

/-- `std::map::insert_or_assign`: replace the binding of the key in place,
or append a fresh binding when the key is absent. -/
def insertOrAssign {K V : Type} [DecidableEq K] : List (K × V) → K → V → List (K × V)
  | [], k, v => [(k, v)]
  | (k2, v2) :: rest, k, v =>
    if k2 = k then (k, v) :: rest else (k2, v2) :: insertOrAssign rest k v

/-- `std::map::emplace`: insert a binding only when the key is absent; an
existing binding is left untouched. -/
def emplace {K V : Type} [DecidableEq K] : List (K × V) → K → V → List (K × V)
  | [], k, v => [(k, v)]
  | (k2, v2) :: rest, k, v =>
    if k2 = k then (k2, v2) :: rest else (k2, v2) :: emplace rest k v

/-- Modelled from the spec: the external collaborators of the activation
engine. `bibs/belief.hpp` is not under `src/`, so the three relationship
lookups of an `IBelief` (`beliefRelationship`, `observedBehaviourRelationship`,
`performingBehaviourRelationship`) are taken at their specified interface:
pure lookups returning `none` on a missing key (NotFound). A friend's
`performed(t)` is a virtual call on another agent; it is likewise an oracle
returning `none` for NotFound (the stored pointer itself may be null). -/
structure Env where
  beliefRel : IBelief → IBelief → Option ℝ
  obsRel : IBelief → Option IBehaviour → Option ℝ
  perfRel : IBelief → IBehaviour → Option ℝ
  friendPerformed : AgentPtr → sim_time_t → Option (Option IBehaviour)

/-- The private state of `BIBS::Agent`. -/
structure Agent where
  activationMap : List (sim_time_t × List (IBelief × ℝ))
  performedMap : List (sim_time_t × Option IBehaviour)
  friends : List (AgentPtr × ℝ)
  timeDeltaMap : List (IBelief × ℝ)

/-- `Agent::activation`: `activationMap.at(t).at(b)`. -/
def Agent.activation (ag : Agent) (t : sim_time_t) (b : IBelief) : Option ℝ :=
  match mapAt ag.activationMap t with
  | none => none
  | some m => mapAt m b

/-- `Agent::performed`: `performedMap.at(t)` (a possibly-null pointer). -/
def Agent.performed (ag : Agent) (t : sim_time_t) : Option (Option IBehaviour) :=
  mapAt ag.performedMap t

/-- `Agent::_addPerformed`: `performedMap.insert_or_assign(t, b)`. -/
def Agent._addPerformed (ag : Agent) (t : sim_time_t) (b : Option IBehaviour) : Agent :=
  { ag with performedMap := insertOrAssign ag.performedMap t b }

/-- `Agent::friendWeight`: `friends.at(a)`. -/
def Agent.friendWeight (ag : Agent) (a : AgentPtr) : Option ℝ :=
  mapAt ag.friends a

/-- `Agent::setFriendWeight`: `friends.insert_or_assign(a, w)`. -/
def Agent.setFriendWeight (ag : Agent) (a : AgentPtr) (w : ℝ) : Agent :=
  { ag with friends := insertOrAssign ag.friends a w }

/-- `Agent::timeDelta`: `timeDeltaMap.at(b)`. -/
def Agent.timeDelta (ag : Agent) (b : IBelief) : Option ℝ :=
  mapAt ag.timeDeltaMap b

/-- `Agent::setTimeDelta`: `timeDeltaMap.insert_or_assign(b, td)`. -/
def Agent.setTimeDelta (ag : Agent) (b : IBelief) (td : ℝ) : Agent :=
  { ag with timeDeltaMap := insertOrAssign ag.timeDeltaMap b td }

/-- The summation loop of `Agent::observed`:
`ret_value += w * b->observedBehaviourRelationship(a->performed(t))`
over the `friends` map, with failure of either lookup escaping the call. -/
noncomputable def observedGo (env : Env) (b : IBelief) (t : sim_time_t) :
    ℝ → List (AgentPtr × ℝ) → Option ℝ
  | acc, [] => some acc
  | acc, (a, w) :: rest =>
    match env.friendPerformed a t with
    | none => none
    | some p =>
      match env.obsRel b p with
      | none => none
      | some r => observedGo env b t (acc + w * r) rest

/-- `Agent::observed`. -/
noncomputable def Agent.observed (ag : Agent) (env : Env) (b : IBelief) (t : sim_time_t) : Option ℝ :=
  observedGo env b t 0 ag.friends

/-- `Agent::heldBeliefs`: the keys of `activationMap.at(t)`. -/
def Agent.heldBeliefs (ag : Agent) (t : sim_time_t) : Option (List IBelief) :=
  match mapAt ag.activationMap t with
  | none => none
  | some m => some (m.map Prod.fst)

/-- The summation loop of `Agent::contextualise`:
`value_to_exp += activation(t, b2) * b->beliefRelationship(b2)` over the
held beliefs. -/
noncomputable def contextualiseGo (ag : Agent) (env : Env) (b : IBelief) (t : sim_time_t) :
    ℝ → List IBelief → Option ℝ
  | acc, [] => some acc
  | acc, b2 :: rest =>
    match ag.activation t b2 with
    | none => none
    | some a =>
      match env.beliefRel b b2 with
      | none => none
      | some r => contextualiseGo ag env b t (acc + a * r) rest

/-- `Agent::contextualise`: `std::exp(value_to_exp)`. -/
noncomputable def Agent.contextualise (ag : Agent) (env : Env) (b : IBelief) (t : sim_time_t) : Option ℝ :=
  match ag.heldBeliefs t with
  | none => none
  | some bs =>
    match contextualiseGo ag env b t 0 bs with
    | none => none
    | some s => some (Real.exp s)

/-- `Agent::contextualObserved`: `contextualise(b, t) * observed(b, t)`. -/
noncomputable def Agent.contextualObserved (ag : Agent) (env : Env) (b : IBelief) (t : sim_time_t) : Option ℝ :=
  match ag.contextualise env b t with
  | none => none
  | some c =>
    match ag.observed env b t with
    | none => none
    | some o => some (c * o)

/-- `Agent::updateActivation`: compute
`timeDelta(b) * activation(t - 1, b) + contextualObserved(b, t - 1)` and then
`activationMap.at(t).emplace(b, newActivation)`, lazily creating the
sub-map for `t` when `at(t)` throws. Any NotFound during the computation
escapes before any mutation. -/
noncomputable def Agent.updateActivation (ag : Agent) (env : Env) (t : sim_time_t) (b : IBelief) : Option Agent :=
  match ag.timeDelta b with
  | none => none
  | some td =>
    match ag.activation (t - 1) b with
    | none => none
    | some act =>
      match ag.contextualObserved env b (t - 1) with
      | none => none
      | some co =>
        let newActivation := td * act + co
        match mapAt ag.activationMap t with
        | some m =>
          some { ag with activationMap := insertOrAssign ag.activationMap t (emplace m b newActivation) }
        | none =>
          some { ag with activationMap := emplace ag.activationMap t (emplace [] b newActivation) }

theorem mapAt_insertOrAssign_self {K V : Type} [DecidableEq K]
    (m : List (K × V)) (k : K) (v : V) :
    mapAt (insertOrAssign m k v) k = some v := by
  induction m with
  | nil => simp [insertOrAssign, mapAt]
  | cons p rest ih =>
    by_cases h : p.1 = k
    · simp [insertOrAssign, h, mapAt]
    · simp [insertOrAssign, h, mapAt, ih]

theorem mapAt_insertOrAssign_ne {K V : Type} [DecidableEq K]
    (m : List (K × V)) (k k2 : K) (v : V) (h : k2 ≠ k) :
    mapAt (insertOrAssign m k v) k2 = mapAt m k2 := by
  induction m with
  | nil => simp [insertOrAssign, mapAt, Ne.symm h]
  | cons p rest ih =>
    obtain ⟨pk, pv⟩ := p
    by_cases hp : pk = k
    · simp [insertOrAssign, hp, mapAt, Ne.symm h]
    · simp [insertOrAssign, hp, mapAt, ih]

theorem mapAt_emplace_absent {K V : Type} [DecidableEq K]
    (m : List (K × V)) (k : K) (v : V) (h : mapAt m k = none) :
    mapAt (emplace m k v) k = some v := by
  induction m with
  | nil => simp [emplace, mapAt]
  | cons p rest ih =>
    by_cases hp : p.1 = k
    · simp [mapAt, hp] at h
    · simp [mapAt, hp] at h
      simp [emplace, hp, mapAt, ih h]

theorem emplace_present {K V : Type} [DecidableEq K]
    (m : List (K × V)) (k : K) (v w : V) (h : mapAt m k = some w) :
    emplace m k v = m := by
  induction m with
  | nil => simp [mapAt] at h
  | cons p rest ih =>
    obtain ⟨pk, pv⟩ := p
    by_cases hp : pk = k
    · simp [emplace, hp]
    · simp [mapAt, hp] at h
      simp [emplace, hp, ih h]

/-- C9: the set-then-get round trip for friend weights and time deltas:
`setFriendWeight(a, w1)` makes `friendWeight(a)` return `w1`, a second
`setFriendWeight(a, w2)` fully overwrites it, and the same last-write-wins
round trip holds for `setTimeDelta` / `timeDelta`. -/
theorem setFriendWeight_setTimeDelta_roundtrip (ag : Agent) (a : AgentPtr) (b : IBelief) (w1 w2 : ℝ) :
    ((ag.setFriendWeight a w1).friendWeight a = some w1)
    ∧ (((ag.setFriendWeight a w1).setFriendWeight a w2).friendWeight a = some w2)
    ∧ ((ag.setTimeDelta b w1).timeDelta b = some w1)
    ∧ (((ag.setTimeDelta b w1).setTimeDelta b w2).timeDelta b = some w2) := by
  refine ⟨?_, ?_, ?_, ?_⟩ <;>
    simp [Agent.setFriendWeight, Agent.friendWeight, Agent.setTimeDelta, Agent.timeDelta,
      mapAt_insertOrAssign_self]

/-- `Agent::beliefBehaviour`:
`bel->performingBehaviourRelationship(beh) * activation(t, bel)`. -/
noncomputable def Agent.beliefBehaviour (ag : Agent) (env : Env) (bel : IBelief) (beh : IBehaviour) (t : sim_time_t) : Option ℝ :=
  match env.perfRel bel beh with
  | none => none
  | some r =>
    match ag.activation t bel with
    | none => none
    | some a => some (r * a)

/-- `Agent::contextualBeliefBehaviour`:
`contextualise(bel, t) * beliefBehaviour(bel, beh, t)`. -/
noncomputable def Agent.contextualBeliefBehaviour (ag : Agent) (env : Env) (bel : IBelief) (beh : IBehaviour) (t : sim_time_t) : Option ℝ :=
  match ag.contextualise env bel t with
  | none => none
  | some c =>
    match ag.beliefBehaviour env bel beh t with
    | none => none
    | some v => some (c * v)

/-- The summation loop of `Agent::contextualBehaviour`:
`returnVal += contextualBeliefBehaviour(belief, b, t)` over the entries of
`activationMap.at(t)`. -/
noncomputable def contextualBehaviourGo (ag : Agent) (env : Env) (beh : IBehaviour) (t : sim_time_t) :
    ℝ → List (IBelief × ℝ) → Option ℝ
  | acc, [] => some acc
  | acc, p :: rest =>
    match ag.contextualBeliefBehaviour env p.1 beh t with
    | none => none
    | some v => contextualBehaviourGo ag env beh t (acc + v) rest

/-- `Agent::contextualBehaviour`. -/
noncomputable def Agent.contextualBehaviour (ag : Agent) (env : Env) (beh : IBehaviour) (t : sim_time_t) : Option ℝ :=
  match mapAt ag.activationMap t with
  | none => none
  | some m => contextualBehaviourGo ag env beh t 0 m

/-- `Agent::environment`: the concrete `Agent` returns `0.0` for all inputs. -/
def Agent.environment (_ag : Agent) (_b : IBehaviour) (_t : sim_time_t) : ℝ :=
  0

/-- `Agent::utility`: `contextualBehaviour(b, t) + environment(b, t)`. -/
noncomputable def Agent.utility (ag : Agent) (env : Env) (b : IBehaviour) (t : sim_time_t) : Option ℝ :=
  match ag.contextualBehaviour env b t with
  | none => none
  | some cb => some (cb + ag.environment b t)

/-- The candidate loop of `Agent::perform`: tracks the running maximum
(`maxBehaviour`, `maxUtility`) and accumulates the positive-utility
candidates with their utilities. The initial `maxUtility` is
`std::numeric_limits<double>::lowest()`, modelled as the `none` state that
any real utility strictly exceeds; `maxBehaviour` starts as `nullptr`.
A failing utility computation escapes the whole call. -/
noncomputable def performLoop (ag : Agent) (env : Env) (t : sim_time_t) :
    List IBehaviour → Option (IBehaviour × ℝ) → List (IBehaviour × ℝ) →
    Option (Option (IBehaviour × ℝ) × List (IBehaviour × ℝ))
  | [], mx, pos => some (mx, pos)
  | b :: rest, mx, pos =>
    match ag.utility env b t with
    | none => none
    | some ut =>
      let mx2 : Option (IBehaviour × ℝ) :=
        match mx with
        | none => some (b, ut)
        | some (mb, mu) => if mu < ut then some (b, ut) else some (mb, mu)
      let pos2 := if 0 < ut then pos ++ [(b, ut)] else pos
      performLoop ag env t rest mx2 pos2

/-- `Agent::perform`: run the candidate loop; if at most one candidate has
positive utility, record the tracked maximum (`performedMap[t] = maxBehaviour`,
possibly the null pointer when there were no candidates); otherwise draw an
index from the weighted categorical distribution over the positive utilities
and record that candidate. The draw is modelled by the external `choice`
taken modulo the number of positive candidates, covering every index the
`std::discrete_distribution` can produce. -/
noncomputable def Agent.perform (ag : Agent) (env : Env) (t : sim_time_t)
    (bs : List IBehaviour) (choice : Nat) : Option Agent :=
  match performLoop ag env t bs none [] with
  | none => none
  | some (mx, pos) =>
    if pos.length ≤ 1 then
      some { ag with performedMap := insertOrAssign ag.performedMap t (mx.map Prod.fst) }
    else
      match pos[choice % pos.length]? with
      | none => none
      | some p => some { ag with performedMap := insertOrAssign ag.performedMap t (some p.1) }

/-- The belief-update loop of `IAgent::tick`:
`for (bel : bels) updateActivation(t, bel)`, with the first NotFound
escaping the call. -/
noncomputable def updateAll (env : Env) (t : sim_time_t) : Agent → List IBelief → Option Agent
  | ag, [] => some ag
  | ag, b :: rest =>
    match ag.updateActivation env t b with
    | none => none
    | some ag2 => updateAll env t ag2 rest

/-- `IAgent::tick` for the concrete `Agent`: update the activation of every
belief, then perform. -/
noncomputable def Agent.tick (ag : Agent) (env : Env) (t : sim_time_t)
    (behs : List IBehaviour) (bels : List IBelief) (choice : Nat) : Option Agent :=
  match updateAll env t ag bels with
  | none => none
  | some ag2 => ag2.perform env t behs choice

/-- Following the spec's words: the first-seen maximum-utility candidate,
where a later candidate replaces the running maximum only when its utility
is strictly greater (so the first-seen candidate wins ties). -/
noncomputable def firstMax (u : IBehaviour → ℝ) : IBehaviour → List IBehaviour → IBehaviour
  | best, [] => best
  | best, b :: rest => if u best < u b then firstMax u b rest else firstMax u best rest

/-- Following the spec's words: the first-seen maximum-utility candidate of
a candidate list (`none` for the empty list, where no maximum exists). -/
noncomputable def firstSeenMax (u : IBehaviour → ℝ) : List IBehaviour → Option IBehaviour
  | [] => none
  | b :: rest => some (firstMax u b rest)

/-- The positive-utility candidates of a candidate list, in order, paired
with their utilities (the subset `Agent::perform` samples from). -/
noncomputable def positives (u : IBehaviour → ℝ) : List IBehaviour → List (IBehaviour × ℝ)
  | [] => []
  | b :: rest => if 0 < u b then (b, u b) :: positives u rest else positives u rest

theorem mapAt_isSome_of_mem {K V : Type} [DecidableEq K]
    (m : List (K × V)) (p : K × V) (h : p ∈ m) : (mapAt m p.1).isSome := by
  induction m with
  | nil => simp at h
  | cons q rest ih =>
    obtain ⟨qk, qv⟩ := q
    by_cases hq : qk = p.1
    · simp [mapAt, hq]
    · rcases List.mem_cons.mp h with hh | hh
      · rw [hh] at hq; simp at hq
      · simp [mapAt, hq, ih hh]

theorem observedGo_some (env : Env) (b : IBelief) (t : sim_time_t) :
    ∀ (l : List (AgentPtr × ℝ)),
      (∀ p ∈ l, ∃ beh, env.friendPerformed p.1 t = some beh ∧ (env.obsRel b beh).isSome) →
      ∀ acc : ℝ, ∃ o, observedGo env b t acc l = some o := by
  intro l
  induction l with
  | nil => intro _ acc; exact ⟨acc, rfl⟩
  | cons q rest ih =>
    intro h acc
    obtain ⟨qa, qw⟩ := q
    obtain ⟨beh, hfp, hr⟩ := h (qa, qw) (List.mem_cons_self _ _)
    obtain ⟨r, hr2⟩ := Option.isSome_iff_exists.mp hr
    obtain ⟨o, ho⟩ := ih (fun p hp => h p (List.mem_cons_of_mem _ hp)) (acc + qw * r)
    exact ⟨o, by simp [observedGo, hfp, hr2, ho]⟩

theorem observedGo_none (env : Env) (b : IBelief) (t : sim_time_t) :
    ∀ (l : List (AgentPtr × ℝ)),
      (∃ p ∈ l, env.friendPerformed p.1 t = none
        ∨ ∃ beh, env.friendPerformed p.1 t = some beh ∧ env.obsRel b beh = none) →
      ∀ acc : ℝ, observedGo env b t acc l = none := by
  intro l
  induction l with
  | nil => intro h; simp at h
  | cons q rest ih =>
    intro h acc
    obtain ⟨qa, qw⟩ := q
    cases hfp : env.friendPerformed qa t with
    | none => simp [observedGo, hfp]
    | some beh =>
      cases hor : env.obsRel b beh with
      | none => simp [observedGo, hfp, hor]
      | some r =>
        obtain ⟨p, hp, hfail⟩ := h
        rcases List.mem_cons.mp hp with hh | hh
        · exfalso
          rw [hh] at hfail
          rcases hfail with h1 | ⟨beh2, h2, h3⟩
          · rw [hfp] at h1; cases h1
          · rw [hfp] at h2
            injection h2 with h2
            rw [h2] at hor
            rw [hor] at h3; cases h3
        · simp [observedGo, hfp, hor, ih ⟨p, hh, hfail⟩]

theorem contextualiseGo_some (ag : Agent) (env : Env) (b : IBelief) (t : sim_time_t) :
    ∀ (l : List IBelief),
      (∀ b2 ∈ l, (ag.activation t b2).isSome ∧ (env.beliefRel b b2).isSome) →
      ∀ acc : ℝ, ∃ s, contextualiseGo ag env b t acc l = some s := by
  intro l
  induction l with
  | nil => intro _ acc; exact ⟨acc, rfl⟩
  | cons b2 rest ih =>
    intro h acc
    obtain ⟨ha, hr⟩ := h b2 (List.mem_cons_self _ _)
    obtain ⟨a, ha2⟩ := Option.isSome_iff_exists.mp ha
    obtain ⟨r, hr2⟩ := Option.isSome_iff_exists.mp hr
    obtain ⟨s, hs⟩ := ih (fun q hq => h q (List.mem_cons_of_mem _ hq)) (acc + a * r)
    exact ⟨s, by simp [contextualiseGo, ha2, hr2, hs]⟩

theorem contextualiseGo_none (ag : Agent) (env : Env) (b : IBelief) (t : sim_time_t) :
    ∀ (l : List IBelief),
      (∃ b2 ∈ l, ag.activation t b2 = none ∨ env.beliefRel b b2 = none) →
      ∀ acc : ℝ, contextualiseGo ag env b t acc l = none := by
  intro l
  induction l with
  | nil => intro h; simp at h
  | cons b2 rest ih =>
    intro h acc
    cases ha : ag.activation t b2 with
    | none => simp [contextualiseGo, ha]
    | some a =>
      cases hr : env.beliefRel b b2 with
      | none => simp [contextualiseGo, ha, hr]
      | some r =>
        obtain ⟨q, hq, hfail⟩ := h
        rcases List.mem_cons.mp hq with hh | hh
        · exfalso
          rw [hh] at hfail
          rcases hfail with h1 | h1
          · rw [ha] at h1; cases h1
          · rw [hr] at h1; cases h1
        · simp [contextualiseGo, ha, hr, ih ⟨q, hh, hfail⟩]

theorem contextualise_some_of (ag : Agent) (env : Env) (b : IBelief) (t : sim_time_t)
    (m : List (IBelief × ℝ))
    (hm : mapAt ag.activationMap t = some m)
    (hrel : ∀ p ∈ m, (env.beliefRel b p.1).isSome) :
    ∃ s, contextualiseGo ag env b t 0 (m.map Prod.fst) = some s
      ∧ ag.contextualise env b t = some (Real.exp s)
      ∧ (m = [] → s = 0) := by
  have hcond : ∀ b2 ∈ m.map Prod.fst, (ag.activation t b2).isSome ∧ (env.beliefRel b b2).isSome := by
    intro b2 hb2
    obtain ⟨p, hp, hpe⟩ := List.mem_map.mp hb2
    refine ⟨?_, hpe ▸ hrel p hp⟩
    have := mapAt_isSome_of_mem m p hp
    rw [hpe] at this
    simp [Agent.activation, hm, this]
  obtain ⟨s, hs⟩ := contextualiseGo_some ag env b t (m.map Prod.fst) hcond 0
  refine ⟨s, hs, ?_, ?_⟩
  · simp [Agent.contextualise, Agent.heldBeliefs, hm, hs]
  · intro hnil
    rw [hnil] at hs
    simp [contextualiseGo] at hs
    exact hs.symm

theorem contextualObserved_none_of_observed (ag : Agent) (env : Env) (b : IBelief) (t : sim_time_t)
    (h : ag.observed env b t = none) : ag.contextualObserved env b t = none := by
  unfold Agent.contextualObserved
  cases hc : ag.contextualise env b t with
  | none => rfl
  | some c => simp [h]

theorem contextualObserved_none_of_contextualise (ag : Agent) (env : Env) (b : IBelief) (t : sim_time_t)
    (h : ag.contextualise env b t = none) : ag.contextualObserved env b t = none := by
  simp [Agent.contextualObserved, h]

theorem updateActivation_performedMap (ag ag2 : Agent) (env : Env) (t : sim_time_t) (b : IBelief)
    (h : ag.updateActivation env t b = some ag2) : ag2.performedMap = ag.performedMap := by
  unfold Agent.updateActivation at h
  cases htd : ag.timeDelta b with
  | none => simp [htd] at h
  | some td =>
    cases hact : ag.activation (t - 1) b with
    | none => simp [htd, hact] at h
    | some act =>
      cases hco : ag.contextualObserved env b (t - 1) with
      | none => simp [htd, hact, hco] at h
      | some co =>
        cases hmt : mapAt ag.activationMap t with
        | none =>
          simp only [htd, hact, hco, hmt, Option.some.injEq] at h
          rw [← h]
        | some m =>
          simp only [htd, hact, hco, hmt, Option.some.injEq] at h
          rw [← h]

theorem updateAll_performedMap (env : Env) (t : sim_time_t) :
    ∀ (bels : List IBelief) (ag ag2 : Agent),
      updateAll env t ag bels = some ag2 → ag2.performedMap = ag.performedMap := by
  intro bels
  induction bels with
  | nil =>
    intro ag ag2 h
    simp [updateAll] at h
    rw [h]
  | cons b rest ih =>
    intro ag ag2 h
    unfold updateAll at h
    cases hu : ag.updateActivation env t b with
    | none => rw [hu] at h; cases h
    | some ag1 =>
      rw [hu] at h
      rw [ih ag1 ag2 h, updateActivation_performedMap ag ag1 env t b hu]

/-- C1 (amended): for defined `timeDelta(b)`, defined `activation(t-1, b)`,
all friends' performed behaviours and all consulted relationship entries
defined, and additionally no existing activation entry for `(t, b)`,
`updateActivation(t, b)` stores at `(t, b)` exactly
`timeDelta(b) * activation(t-1, b) + contextualise(b, t-1) * observed(b, t-1)`.
(The insertion is `std::map::emplace`, which does not overwrite, hence the
added freshness hypothesis.) -/
theorem updateActivation_stores_fresh (ag : Agent) (env : Env) (t : sim_time_t) (b : IBelief)
    (td a : ℝ) (m : List (IBelief × ℝ))
    (htd : ag.timeDelta b = some td)
    (hact : ag.activation (t - 1) b = some a)
    (hm : mapAt ag.activationMap (t - 1) = some m)
    (hrel : ∀ p ∈ m, (env.beliefRel b p.1).isSome)
    (hfr : ∀ p ∈ ag.friends, ∃ beh, env.friendPerformed p.1 (t - 1) = some beh
            ∧ (env.obsRel b beh).isSome)
    (habs : ag.activation t b = none) :
    ∃ ag2 c o, ag.updateActivation env t b = some ag2
      ∧ ag.contextualise env b (t - 1) = some c
      ∧ ag.observed env b (t - 1) = some o
      ∧ ag2.activation t b = some (td * a + c * o) := by
  obtain ⟨s, hgo, hctx, _⟩ := contextualise_some_of ag env b (t - 1) m hm hrel
  obtain ⟨o, hobs⟩ := observedGo_some env b (t - 1) ag.friends hfr 0
  have hobs2 : ag.observed env b (t - 1) = some o := hobs
  have hco : ag.contextualObserved env b (t - 1) = some (Real.exp s * o) := by
    simp [Agent.contextualObserved, hctx, hobs2]
  cases hmt : mapAt ag.activationMap t with
  | none =>
    refine ⟨{ ag with activationMap := emplace ag.activationMap t (emplace [] b (td * a + Real.exp s * o)) },
      Real.exp s, o, ?_, hctx, hobs2, ?_⟩
    · simp [Agent.updateActivation, htd, hact, hco, hmt]
    · simp [Agent.activation, emplace,
        mapAt_emplace_absent ag.activationMap t [(b, td * a + Real.exp s * o)] hmt, mapAt]
  | some m2 =>
    have hm2 : mapAt m2 b = none := by
      simp [Agent.activation, hmt] at habs
      exact habs
    refine ⟨{ ag with activationMap := insertOrAssign ag.activationMap t (emplace m2 b (td * a + Real.exp s * o)) },
      Real.exp s, o, ?_, hctx, hobs2, ?_⟩
    · simp [Agent.updateActivation, htd, hact, hco, hmt]
    · simp [Agent.activation, mapAt_insertOrAssign_self,
        mapAt_emplace_absent m2 b (td * a + Real.exp s * o) hm2]

def bW1 : IBelief := ⟨0⟩

def agW1 : Agent :=
  { activationMap := [(0, [(bW1, 1)])]
    performedMap := []
    friends := []
    timeDeltaMap := [(bW1, 2)] }

def envW1 : Env :=
  { beliefRel := fun _ _ => some 0
    obsRel := fun _ _ => some 0
    perfRel := fun _ _ => some 0
    friendPerformed := fun _ _ => some none }

theorem updateActivation_stores_fresh_witness :
    ∃ ag2 c o, agW1.updateActivation envW1 1 bW1 = some ag2
      ∧ agW1.contextualise envW1 bW1 (1 - 1) = some c
      ∧ agW1.observed envW1 bW1 (1 - 1) = some o
      ∧ ag2.activation 1 bW1 = some (2 * 1 + c * o) :=
  updateActivation_stores_fresh agW1 envW1 1 bW1 2 1 [(bW1, 1)]
    (by simp [agW1, Agent.timeDelta, mapAt])
    (by simp [agW1, Agent.activation, mapAt])
    (by simp [agW1, mapAt])
    (by simp [envW1])
    (by simp [agW1])
    (by simp [agW1, Agent.activation, mapAt])

def bX1 : IBelief := ⟨0⟩

def agX1 : Agent :=
  { activationMap := [(0, [(bX1, 1)]), (1, [(bX1, 5)])]
    performedMap := []
    friends := []
    timeDeltaMap := [(bX1, 2)] }

def envX1 : Env :=
  { beliefRel := fun _ _ => some 0
    obsRel := fun _ _ => some 0
    perfRel := fun _ _ => some 0
    friendPerformed := fun _ _ => some none }

/-- C1 counterexample: with `timeDelta = 2`, `activation(0, b) = 1`,
`contextualise(b, 0) = 1`, `observed(b, 0) = 0` all defined (the agent has
no friends, so all friend lookups trivially succeed), `updateActivation(1, b)`
succeeds but the record at `(1, b)` still holds the pre-existing value `5`,
not the recomputed `2 * 1 + 1 * 0`: `std::map::emplace` does not overwrite. -/
theorem updateActivation_stale_value_cex :
    agX1.timeDelta bX1 = some 2
    ∧ agX1.activation 0 bX1 = some 1
    ∧ agX1.contextualise envX1 bX1 0 = some 1
    ∧ agX1.observed envX1 bX1 0 = some 0
    ∧ agX1.updateActivation envX1 1 bX1 = some agX1
    ∧ agX1.activation 1 bX1 = some 5
    ∧ (5 : ℝ) ≠ 2 * 1 + 1 * 0 := by
  refine ⟨by simp [agX1, bX1, Agent.timeDelta, mapAt],
    by simp [agX1, bX1, Agent.activation, mapAt],
    by simp [agX1, envX1, bX1, Agent.contextualise, Agent.heldBeliefs, contextualiseGo,
      Agent.activation, mapAt, Real.exp_zero],
    by simp [agX1, envX1, Agent.observed, observedGo],
    ?_,
    by simp [agX1, bX1, Agent.activation, mapAt],
    by norm_num⟩
  simp [agX1, envX1, bX1, Agent.updateActivation, Agent.timeDelta, Agent.activation,
    Agent.contextualObserved, Agent.contextualise, Agent.heldBeliefs, contextualiseGo,
    Agent.observed, observedGo, mapAt, emplace, insertOrAssign]

/-- C2 (amended): if the activation record already contains a value for
`(t, b)`, a successful `updateActivation(t, b)` leaves that prior value in
place: the insertion is `std::map::emplace`, which inserts only when the key
is absent, so the recomputed value is discarded and re-invocation does not
overwrite. -/
theorem updateActivation_keeps_existing (ag ag2 : Agent) (env : Env) (t : sim_time_t)
    (b : IBelief) (v : ℝ)
    (hprev : ag.activation t b = some v)
    (hsucc : ag.updateActivation env t b = some ag2) :
    ag2.activation t b = some v := by
  unfold Agent.updateActivation at hsucc
  cases htd : ag.timeDelta b with
  | none => simp [htd] at hsucc
  | some td =>
    cases hact : ag.activation (t - 1) b with
    | none => simp [htd, hact] at hsucc
    | some act =>
      cases hco : ag.contextualObserved env b (t - 1) with
      | none => simp [htd, hact, hco] at hsucc
      | some co =>
        cases hmt : mapAt ag.activationMap t with
        | none =>
          unfold Agent.activation at hprev
          rw [hmt] at hprev
          cases hprev
        | some mt =>
          have hmb : mapAt mt b = some v := by
            unfold Agent.activation at hprev
            rw [hmt] at hprev
            exact hprev
          simp only [htd, hact, hco, hmt, Option.some.injEq] at hsucc
          rw [← hsucc]
          have he : emplace mt b (td * act + co) = mt := emplace_present mt b _ v hmb
          simp [Agent.activation, he, mapAt_insertOrAssign_self, hmb]

def bW2 : IBelief := ⟨0⟩

def agW2 : Agent :=
  { activationMap := [(0, [(bW2, 2)]), (1, [(bW2, 7)])]
    performedMap := []
    friends := []
    timeDeltaMap := [(bW2, 3)] }

def envW2 : Env :=
  { beliefRel := fun _ _ => some 0
    obsRel := fun _ _ => some 0
    perfRel := fun _ _ => some 0
    friendPerformed := fun _ _ => some none }

theorem updateActivation_keeps_existing_witness : agW2.activation 1 bW2 = some 7 :=
  updateActivation_keeps_existing agW2 agW2 envW2 1 bW2 7
    (by simp [agW2, bW2, Agent.activation, mapAt])
    (by simp [agW2, envW2, bW2, Agent.updateActivation, Agent.timeDelta, Agent.activation,
      Agent.contextualObserved, Agent.contextualise, Agent.heldBeliefs, contextualiseGo,
      Agent.observed, observedGo, mapAt, emplace, insertOrAssign])

def bX2 : IBelief := ⟨1⟩

def agX2 : Agent :=
  { activationMap := [(0, [(bX2, 2)]), (1, [(bX2, 7)])]
    performedMap := []
    friends := []
    timeDeltaMap := [(bX2, 3)] }

def envX2 : Env :=
  { beliefRel := fun _ _ => some 0
    obsRel := fun _ _ => some 0
    perfRel := fun _ _ => some 0
    friendPerformed := fun _ _ => some none }

/-- C2 counterexample: a successful re-invocation of `updateActivation(1, b)`
on a record that already holds `7` at `(1, b)` recomputes
`timeDelta * activation(0, b) + contextualise * observed = 3 * 2 + 1 * 0 = 6`
but stores nothing: the record still holds `7`, so the claimed overwrite with
the newly computed value does not happen. -/
theorem updateActivation_no_overwrite_cex :
    agX2.timeDelta bX2 = some 3
    ∧ agX2.activation 0 bX2 = some 2
    ∧ agX2.contextualise envX2 bX2 0 = some 1
    ∧ agX2.observed envX2 bX2 0 = some 0
    ∧ agX2.updateActivation envX2 1 bX2 = some agX2
    ∧ agX2.activation 1 bX2 = some 7
    ∧ (7 : ℝ) ≠ 3 * 2 + 1 * 0 := by
  refine ⟨by simp [agX2, bX2, Agent.timeDelta, mapAt],
    by simp [agX2, bX2, Agent.activation, mapAt],
    by simp [agX2, envX2, bX2, Agent.contextualise, Agent.heldBeliefs, contextualiseGo,
      Agent.activation, mapAt, Real.exp_zero],
    by simp [agX2, envX2, Agent.observed, observedGo],
    ?_,
    by simp [agX2, bX2, Agent.activation, mapAt],
    by norm_num⟩
  simp [agX2, envX2, bX2, Agent.updateActivation, Agent.timeDelta, Agent.activation,
    Agent.contextualObserved, Agent.contextualise, Agent.heldBeliefs, contextualiseGo,
    Agent.observed, observedGo, mapAt, emplace, insertOrAssign]

/-- C5: whenever the activation record has an entry for `t` and every
belief-relationship weight consulted is defined, `contextualise(b, t)` is
defined and strictly positive (it is `exp` of a real sum), and it is exactly
`1.0` when the set of beliefs held at `t` is empty. -/
theorem contextualise_strictly_positive (ag : Agent) (env : Env) (b : IBelief) (t : sim_time_t)
    (m : List (IBelief × ℝ))
    (hm : mapAt ag.activationMap t = some m)
    (hrel : ∀ p ∈ m, (env.beliefRel b p.1).isSome) :
    ∃ c, ag.contextualise env b t = some c ∧ 0 < c ∧ (m = [] → c = 1) := by
  obtain ⟨s, _, hc, hnil⟩ := contextualise_some_of ag env b t m hm hrel
  exact ⟨Real.exp s, hc, Real.exp_pos s, fun h => by rw [hnil h, Real.exp_zero]⟩

def bW5 : IBelief := ⟨3⟩

def agW5 : Agent :=
  { activationMap := [(4, [])]
    performedMap := []
    friends := []
    timeDeltaMap := [] }

def envW5 : Env :=
  { beliefRel := fun _ _ => some 0
    obsRel := fun _ _ => some 0
    perfRel := fun _ _ => some 0
    friendPerformed := fun _ _ => some none }

theorem contextualise_strictly_positive_witness :
    agW5.contextualise envW5 bW5 4 = some 1 ∧ (0 : ℝ) < 1 := by
  obtain ⟨c, hc, hpos, hone⟩ := contextualise_strictly_positive agW5 envW5 bW5 4 []
    (by simp [agW5, mapAt]) (by simp)
  have h1 : c = 1 := hone rfl
  rw [h1] at hc hpos
  exact ⟨hc, hpos⟩

theorem updateActivation_none_of_co (ag : Agent) (env : Env) (t : sim_time_t) (b : IBelief)
    (hco : ag.contextualObserved env b (t - 1) = none) :
    ag.updateActivation env t b = none := by
  unfold Agent.updateActivation
  cases htd : ag.timeDelta b with
  | none => rfl
  | some td =>
    cases hact : ag.activation (t - 1) b with
    | none => rfl
    | some act => simp [hco]

/-- C6: when `updateActivation(t, b)` fails with NotFound — a missing
`timeDelta`, a missing prior activation, a friend without a performed
behaviour at `t-1`, or a missing relationship-table entry (observed or
belief-belief) — the call returns `none`: no successor state is produced,
so the agent's activation record is exactly what it was before the call
(in the embedding the final insertion is the only mutation, and it is
reached only after the whole value is computed). -/
theorem updateActivation_notFound_no_insert (ag : Agent) (env : Env) (t : sim_time_t) (b : IBelief)
    (h : ag.timeDelta b = none
      ∨ ag.activation (t - 1) b = none
      ∨ (∃ p ∈ ag.friends, env.friendPerformed p.1 (t - 1) = none)
      ∨ (∃ p ∈ ag.friends, ∃ beh, env.friendPerformed p.1 (t - 1) = some beh
          ∧ env.obsRel b beh = none)
      ∨ (∃ m, mapAt ag.activationMap (t - 1) = some m
          ∧ ∃ p ∈ m, env.beliefRel b p.1 = none)) :
    ag.updateActivation env t b = none := by
  rcases h with h1 | h2 | h3 | h4 | h5
  · simp [Agent.updateActivation, h1]
  · unfold Agent.updateActivation
    cases htd : ag.timeDelta b with
    | none => rfl
    | some td => simp [h2]
  · obtain ⟨p, hp, hfp⟩ := h3
    have hobs : ag.observed env b (t - 1) = none :=
      observedGo_none env b (t - 1) ag.friends ⟨p, hp, Or.inl hfp⟩ 0
    exact updateActivation_none_of_co ag env t b
      (contextualObserved_none_of_observed ag env b (t - 1) hobs)
  · obtain ⟨p, hp, beh, hfp, hor⟩ := h4
    have hobs : ag.observed env b (t - 1) = none :=
      observedGo_none env b (t - 1) ag.friends ⟨p, hp, Or.inr ⟨beh, hfp, hor⟩⟩ 0
    exact updateActivation_none_of_co ag env t b
      (contextualObserved_none_of_observed ag env b (t - 1) hobs)
  · obtain ⟨m, hm, p, hp, hbr⟩ := h5
    have hgo : contextualiseGo ag env b (t - 1) 0 (m.map Prod.fst) = none :=
      contextualiseGo_none ag env b (t - 1) (m.map Prod.fst)
        ⟨p.1, List.mem_map.mpr ⟨p, hp, rfl⟩, Or.inr hbr⟩ 0
    have hctx : ag.contextualise env b (t - 1) = none := by
      simp [Agent.contextualise, Agent.heldBeliefs, hm, hgo]
    exact updateActivation_none_of_co ag env t b
      (contextualObserved_none_of_contextualise ag env b (t - 1) hctx)

def bW6 : IBelief := ⟨2⟩

def agW6 : Agent :=
  { activationMap := []
    performedMap := []
    friends := []
    timeDeltaMap := [] }

def envW6 : Env :=
  { beliefRel := fun _ _ => some 0
    obsRel := fun _ _ => some 0
    perfRel := fun _ _ => some 0
    friendPerformed := fun _ _ => some none }

theorem updateActivation_notFound_no_insert_witness :
    agW6.updateActivation envW6 5 bW6 = none :=
  updateActivation_notFound_no_insert agW6 envW6 5 bW6 (Or.inl rfl)

theorem contextualBehaviourGo_sum (ag : Agent) (env : Env) (beh : IBehaviour) (t : sim_time_t) :
    ∀ (l : List (IBelief × ℝ)) (acc : ℝ),
      (∀ p ∈ l, (ag.contextualBeliefBehaviour env p.1 beh t).isSome) →
      contextualBehaviourGo ag env beh t acc l
        = some (acc + (l.map (fun p => (ag.contextualBeliefBehaviour env p.1 beh t).getD 0)).sum) := by
  intro l
  induction l with
  | nil => intro acc _; simp [contextualBehaviourGo]
  | cons p rest ih =>
    intro acc h
    obtain ⟨v, hv⟩ := Option.isSome_iff_exists.mp (h p (List.mem_cons_self _ _))
    simp only [contextualBehaviourGo, hv]
    rw [ih (acc + v) (fun q hq => h q (List.mem_cons_of_mem _ hq))]
    simp [hv, add_assoc]

theorem contextualBeliefBehaviour_val (ag : Agent) (env : Env) (bel : IBelief) (beh : IBehaviour)
    (t : sim_time_t) (c r a : ℝ)
    (hc : ag.contextualise env bel t = some c)
    (hr : env.perfRel bel beh = some r)
    (ha : ag.activation t bel = some a) :
    ag.contextualBeliefBehaviour env bel beh t = some (c * (r * a)) := by
  simp [Agent.contextualBeliefBehaviour, Agent.beliefBehaviour, hc, hr, ha]

theorem contextualise_isSome (ag : Agent) (env : Env) (b : IBelief) (t : sim_time_t)
    (m : List (IBelief × ℝ))
    (hm : mapAt ag.activationMap t = some m)
    (hrel : ∀ p ∈ m, (env.beliefRel b p.1).isSome) :
    (ag.contextualise env b t).isSome := by
  obtain ⟨s, _, hc, _⟩ := contextualise_some_of ag env b t m hm hrel
  simp [hc]

/-- C4: when the agent's activation record has an entry `m` at `t` (the
held-belief set, possibly empty) and every consulted relationship weight is
defined, `utility(beh, t)` is exactly the sum over held beliefs `bel` of
`contextualise(bel, t) * performingBehaviourRelationship(bel, beh) * activation(t, bel)`
plus `environment(beh, t)`; and the concrete `Agent`'s `environment` returns
`0` for all inputs, so `utility` is that sum alone. -/
theorem utility_contextual_sum (ag : Agent) (env : Env) (beh : IBehaviour) (t : sim_time_t)
    (m : List (IBelief × ℝ))
    (hm : mapAt ag.activationMap t = some m)
    (hrel : ∀ p ∈ m, ∀ q ∈ m, (env.beliefRel p.1 q.1).isSome)
    (hperf : ∀ p ∈ m, (env.perfRel p.1 beh).isSome) :
    ag.utility env beh t
      = some ((m.map (fun p => ((ag.contextualise env p.1 t).getD 0)
          * (((env.perfRel p.1 beh).getD 0) * ((ag.activation t p.1).getD 0)))).sum)
    ∧ ∀ (b2 : IBehaviour) (t2 : sim_time_t), ag.environment b2 t2 = 0 := by
  have hsome : ∀ p ∈ m, (ag.contextualBeliefBehaviour env p.1 beh t).isSome := by
    intro p hp
    obtain ⟨c, hc2⟩ := Option.isSome_iff_exists.mp
      (contextualise_isSome ag env p.1 t m hm (fun q hq => hrel p hp q hq))
    obtain ⟨r, hr2⟩ := Option.isSome_iff_exists.mp (hperf p hp)
    have ha2 : (ag.activation t p.1).isSome := by
      unfold Agent.activation
      rw [hm]
      exact mapAt_isSome_of_mem m p hp
    obtain ⟨a, ha3⟩ := Option.isSome_iff_exists.mp ha2
    simp [contextualBeliefBehaviour_val ag env p.1 beh t c r a hc2 hr2 ha3]
  have hmap : m.map (fun p => (ag.contextualBeliefBehaviour env p.1 beh t).getD 0)
      = m.map (fun p => ((ag.contextualise env p.1 t).getD 0)
          * (((env.perfRel p.1 beh).getD 0) * ((ag.activation t p.1).getD 0))) := by
    apply List.map_congr_left
    intro p hp
    obtain ⟨c, hc2⟩ := Option.isSome_iff_exists.mp
      (contextualise_isSome ag env p.1 t m hm (fun q hq => hrel p hp q hq))
    obtain ⟨r, hr2⟩ := Option.isSome_iff_exists.mp (hperf p hp)
    have ha2 : (ag.activation t p.1).isSome := by
      unfold Agent.activation
      rw [hm]
      exact mapAt_isSome_of_mem m p hp
    obtain ⟨a, ha3⟩ := Option.isSome_iff_exists.mp ha2
    rw [contextualBeliefBehaviour_val ag env p.1 beh t c r a hc2 hr2 ha3, hc2, hr2, ha3]
    simp
  refine ⟨?_, fun _ _ => rfl⟩
  have hgo := contextualBehaviourGo_sum ag env beh t m 0 hsome
  rw [hmap] at hgo
  simp [Agent.utility, Agent.contextualBehaviour, hm, hgo, Agent.environment]

def behW4 : IBehaviour := ⟨0⟩

def agW4 : Agent :=
  { activationMap := [(0, [])]
    performedMap := []
    friends := []
    timeDeltaMap := [] }

def envW4 : Env :=
  { beliefRel := fun _ _ => some 0
    obsRel := fun _ _ => some 0
    perfRel := fun _ _ => some 0
    friendPerformed := fun _ _ => some none }

theorem utility_contextual_sum_witness :
    agW4.utility envW4 behW4 0 = some 0 ∧ agW4.environment behW4 0 = 0 := by
  obtain ⟨h1, h2⟩ := utility_contextual_sum agW4 envW4 behW4 0 []
    (by simp [agW4, mapAt]) (by simp) (by simp)
  refine ⟨?_, h2 behW4 0⟩
  simpa using h1

theorem performLoop_char (ag : Agent) (env : Env) (t : sim_time_t) (u : IBehaviour → ℝ) :
    ∀ (l : List IBehaviour) (mb : IBehaviour) (pos : List (IBehaviour × ℝ)),
      (∀ b2 ∈ l, ag.utility env b2 t = some (u b2)) →
      performLoop ag env t l (some (mb, u mb)) pos
        = some (some (firstMax u mb l, u (firstMax u mb l)), pos ++ positives u l) := by
  intro l
  induction l with
  | nil => intro mb pos _; simp [performLoop, firstMax, positives]
  | cons b rest ih =>
    intro mb pos h
    have hb := h b (List.mem_cons_self _ _)
    simp only [performLoop, hb]
    by_cases h1 : u mb < u b
    · by_cases h2 : 0 < u b
      · have hr := ih b (pos ++ [(b, u b)]) (fun q hq => h q (List.mem_cons_of_mem _ hq))
        simp [h1, h2, hr, firstMax, positives, List.append_assoc]
      · have hr := ih b pos (fun q hq => h q (List.mem_cons_of_mem _ hq))
        simp [h1, h2, hr, firstMax, positives]
    · by_cases h2 : 0 < u b
      · have hr := ih mb (pos ++ [(b, u b)]) (fun q hq => h q (List.mem_cons_of_mem _ hq))
        simp [h1, h2, hr, firstMax, positives, List.append_assoc]
      · have hr := ih mb pos (fun q hq => h q (List.mem_cons_of_mem _ hq))
        simp [h1, h2, hr, firstMax, positives]

/-- C3: for a non-empty candidate list on which every utility computation
succeeds and at most one candidate has utility strictly greater than `0`,
`perform(t, candidates)` deterministically records at `t` the first-seen
maximum-utility candidate (the maximum is tracked with strict `>`, so the
first-seen candidate wins ties), for every possible random draw — i.e. the
random sampler is never consulted. -/
theorem perform_deterministic_single_positive (ag : Agent) (env : Env) (t : sim_time_t)
    (bs : List IBehaviour) (u : IBehaviour → ℝ)
    (hne : bs ≠ [])
    (hu : ∀ b2 ∈ bs, ag.utility env b2 t = some (u b2))
    (hpos : (positives u bs).length ≤ 1) :
    ∃ bmax, firstSeenMax u bs = some bmax
      ∧ ∀ choice : Nat, ag.perform env t bs choice
          = some { ag with performedMap := insertOrAssign ag.performedMap t (some bmax) } := by
  cases bs with
  | nil => exact absurd rfl hne
  | cons b0 rest =>
    refine ⟨firstMax u b0 rest, rfl, ?_⟩
    intro choice
    have hb0 := hu b0 (List.mem_cons_self _ _)
    have hloop := performLoop_char ag env t u rest b0 (if 0 < u b0 then [(b0, u b0)] else [])
      (fun q hq => hu q (List.mem_cons_of_mem _ hq))
    have hstep : performLoop ag env t (b0 :: rest) none []
        = performLoop ag env t rest (some (b0, u b0)) (if 0 < u b0 then [(b0, u b0)] else []) := by
      simp only [performLoop, hb0, List.nil_append]
    have hposall : (if 0 < u b0 then [(b0, u b0)] else []) ++ positives u rest
        = positives u (b0 :: rest) := by
      by_cases h2 : 0 < u b0 <;> simp [positives, h2]
    unfold Agent.perform
    rw [hstep, hloop, hposall]
    simp [hpos]

def blW3 : IBelief := ⟨0⟩

def behA3 : IBehaviour := ⟨0⟩

def behB3 : IBehaviour := ⟨1⟩

def agW3 : Agent :=
  { activationMap := [(0, [(blW3, 1)])]
    performedMap := []
    friends := []
    timeDeltaMap := [] }

def envW3 : Env :=
  { beliefRel := fun _ _ => some 0
    obsRel := fun _ _ => some 0
    perfRel := fun _ beh => if beh = behA3 then some 2 else some (-1)
    friendPerformed := fun _ _ => some none }

noncomputable def uW3 : IBehaviour → ℝ := fun beh => if beh = behA3 then 2 else -1

theorem perform_deterministic_single_positive_witness :
    agW3.perform envW3 0 [behA3, behB3] 37
      = some { agW3 with performedMap := insertOrAssign agW3.performedMap 0 (some behA3) } := by
  obtain ⟨bmax, hb, hall⟩ := perform_deterministic_single_positive agW3 envW3 0 [behA3, behB3] uW3
    (by simp)
    (by
      intro b2 hb2
      rcases List.mem_cons.mp hb2 with h | h
      · subst h
        norm_num [Agent.utility, Agent.contextualBehaviour, contextualBehaviourGo,
          Agent.contextualBeliefBehaviour, Agent.beliefBehaviour, Agent.contextualise,
          Agent.heldBeliefs, contextualiseGo, Agent.activation, Agent.environment,
          agW3, envW3, uW3, blW3, mapAt, Real.exp_zero]
      · simp only [List.mem_singleton] at h
        subst h
        norm_num [Agent.utility, Agent.contextualBehaviour, contextualBehaviourGo,
          Agent.contextualBeliefBehaviour, Agent.beliefBehaviour, Agent.contextualise,
          Agent.heldBeliefs, contextualiseGo, Agent.activation, Agent.environment,
          agW3, envW3, uW3, blW3, behA3, behB3, mapAt, Real.exp_zero])
    (by norm_num [positives, uW3, behA3, behB3])
  have hbm : bmax = behA3 := by
    norm_num [firstSeenMax, firstMax, uW3, behA3, behB3] at hb
    exact hb.symm
  have hres := hall 37
  rw [hbm] at hres
  exact hres

/-- C7 (amended): `perform(t, candidates)` with an empty candidate set does
not fail: the loop leaves `maxBehaviour` as the null pointer and the
positive-utility subset empty, so the call succeeds and silently records the
null behaviour at `performedMap[t]`. -/
theorem perform_empty_records_null (ag : Agent) (env : Env) (t : sim_time_t) (choice : Nat) :
    ag.perform env t [] choice
      = some { ag with performedMap := insertOrAssign ag.performedMap t none } := by
  simp [Agent.perform, performLoop]

def ag7 : Agent :=
  { activationMap := []
    performedMap := []
    friends := []
    timeDeltaMap := [] }

def env7 : Env :=
  { beliefRel := fun _ _ => some 0
    obsRel := fun _ _ => some 0
    perfRel := fun _ _ => some 0
    friendPerformed := fun _ _ => some none }

/-- C7 counterexample: `perform(0, {})` on a fresh agent does not fail — it
succeeds, and afterwards `performed(0)` is defined and holds the null
behaviour (`nullptr` was recorded), contradicting the claim that the call
must fail rather than record silently. -/
theorem perform_empty_not_fail_cex :
    ag7.perform env7 0 [] 0 ≠ none
    ∧ (ag7.perform env7 0 [] 0).bind (fun a => a.performed 0) = some none := by
  constructor
  · simp [ag7, env7, Agent.perform, performLoop, insertOrAssign]
  · simp [ag7, env7, Agent.perform, performLoop, insertOrAssign, Agent.performed, mapAt]

/-- C10: the performed record keeps at most one behaviour per time: a
`_addPerformed(t, b)` overwrites whatever was at `t` (`performed(t)` then
returns `b`), and a successful `perform(t, candidates)` stores its chosen
behaviour with `performedMap[t] = ...`, replacing any prior entry, so
`performed(t)` afterwards returns the behaviour just recorded. -/
theorem performed_last_write_wins (ag ag2 : Agent) (env : Env) (t : sim_time_t)
    (b : Option IBehaviour) (bs : List IBehaviour) (choice : Nat)
    (hperf : ag.perform env t bs choice = some ag2) :
    ((ag._addPerformed t b).performed t = some b)
    ∧ ∃ mb, ag2.performedMap = insertOrAssign ag.performedMap t mb
        ∧ ag2.performed t = some mb := by
  constructor
  · simp [Agent._addPerformed, Agent.performed, mapAt_insertOrAssign_self]
  · unfold Agent.perform at hperf
    cases hl : performLoop ag env t bs none [] with
    | none => rw [hl] at hperf; cases hperf
    | some st =>
      obtain ⟨mx, pos⟩ := st
      simp only [hl] at hperf
      by_cases hlen : pos.length ≤ 1
      · rw [if_pos hlen] at hperf
        injection hperf with h2
        exact ⟨mx.map Prod.fst, by rw [← h2],
          by rw [← h2]; simp [Agent.performed, mapAt_insertOrAssign_self]⟩
      · rw [if_neg hlen] at hperf
        cases hg : pos[choice % pos.length]? with
        | none => rw [hg] at hperf; cases hperf
        | some p =>
          rw [hg] at hperf
          injection hperf with h2
          exact ⟨some p.1, by rw [← h2],
            by rw [← h2]; simp [Agent.performed, mapAt_insertOrAssign_self]⟩

def behV : IBehaviour := ⟨5⟩

def agV : Agent :=
  { activationMap := []
    performedMap := []
    friends := []
    timeDeltaMap := [] }

def envV : Env :=
  { beliefRel := fun _ _ => some 0
    obsRel := fun _ _ => some 0
    perfRel := fun _ _ => some 0
    friendPerformed := fun _ _ => some none }

def agV2 : Agent :=
  { activationMap := []
    performedMap := [(0, none)]
    friends := []
    timeDeltaMap := [] }

theorem performed_last_write_wins_witness :
    ((agV._addPerformed 0 (some behV)).performed 0 = some (some behV))
    ∧ ∃ mb, agV2.performedMap = insertOrAssign agV.performedMap 0 mb
        ∧ agV2.performed 0 = some mb :=
  performed_last_write_wins agV agV2 envV 0 (some behV) [] 5
    (by simp [agV, agV2, envV, Agent.perform, performLoop, insertOrAssign])

/-- C8: `tick(t, behs, bels)` runs `updateActivation(t, b)` for every belief
in `bels` and only then `perform(t, behs)`: if the belief-update phase fails,
the whole tick returns `none` (perform is never invoked, and no successor
state — in particular no change to the performed record — is produced); if
it succeeds, the intermediate agent has the performed record unchanged and
the tick is exactly that agent's `perform`. -/
theorem tick_updates_then_performs (ag : Agent) (env : Env) (t : sim_time_t)
    (behs : List IBehaviour) (bels : List IBelief) (choice : Nat) :
    (updateAll env t ag bels = none → ag.tick env t behs bels choice = none)
    ∧ (∀ ag2, updateAll env t ag bels = some ag2 →
        ag2.performedMap = ag.performedMap
        ∧ ag.tick env t behs bels choice = ag2.perform env t behs choice) := by
  constructor
  · intro h; simp [Agent.tick, h]
  · intro ag2 h
    exact ⟨updateAll_performedMap env t bels ag ag2 h, by simp [Agent.tick, h]⟩

def bT : IBelief := ⟨0⟩

def agT : Agent :=
  { activationMap := []
    performedMap := []
    friends := []
    timeDeltaMap := [] }

def envT : Env :=
  { beliefRel := fun _ _ => some 0
    obsRel := fun _ _ => some 0
    perfRel := fun _ _ => some 0
    friendPerformed := fun _ _ => some none }

theorem tick_updates_then_performs_witness :
    agT.tick envT 1 [] [bT] 0 = none :=
  (tick_updates_then_performs agT envT 1 [] [bT] 0).1
    (by simp [agT, envT, updateAll, Agent.updateActivation, Agent.timeDelta, mapAt])
